import Mathlib

/-!
Shallow embedding of the EDGAR-v2 SEC-filing downloader (single Go source file
`a.go`) and proofs about its core behaviour: the filing selector, the run
summary counters, ticker resolution, the idempotent document fetch, the text
written for a downloaded filing, and the rate-limited retry dispatcher.

Go machine integers that matter here (attempt counters, status codes, list
lengths) are modelled as `Nat`; `time.Duration` (an `int64` of nanoseconds) is
modelled as `Int` with an explicit nanoseconds-per-second factor. Ambient time
(`time.Now`) is passed in explicitly. Fallible operations return `Option`.
-/

namespace EDGAR

/-- Constant `MaxFilesToFetch = 10` from `a.go`. -/
def MaxFilesToFetch : Nat := 10

/-- Constant `MaxRetries = 5` from `a.go`. -/
def MaxRetries : Nat := 5

/-- Nanoseconds in one second; `time.Second` in Go. -/
def nsPerSecond : Int := 1000000000

/-- Constant `DefaultRetryDelay = 5 * time.Second` from `a.go`, in nanoseconds. -/
def DefaultRetryDelay : Int := 5 * nsPerSecond

/-! ## Models of the Go standard-library helpers used by `a.go` -/

/-- Model of Go `strconv.Atoi`: optional single sign, then one or more ASCII
digits, with the 64-bit signed range check of `strconv.ParseInt`; anything else
is an error (`none`). -/
def goAtoi (s : String) : Option Int :=
  let cs := s.toList
  let signed : Int × List Char :=
    match cs with
    | '+' :: rest => (1, rest)
    | '-' :: rest => (-1, rest)
    | _ => (1, cs)
  let sign := signed.1
  let ds := signed.2
  if ds.isEmpty then none
  else if ds.all (fun c => c.isDigit) then
    let n : Nat := ds.foldl (fun a c => a * 10 + (c.toNat - 48)) 0
    let v : Int := sign * (n : Int)
    if v < -(2 ^ 63) || v > 2 ^ 63 - 1 then none else some v
  else none

/-- Check whether `sub` occurs as a contiguous run starting at some position
of the second list. -/
def containsAux (sub : List Char) : List Char → Bool
  | [] => sub.isEmpty
  | c :: cs => sub.isPrefixOf (c :: cs) || containsAux sub cs

/-- Model of Go `strings.Contains s sub`: `sub` occurs as a contiguous
substring of `s`. -/
def goContains (s sub : String) : Bool :=
  containsAux sub.toList s.toList

/-- Model of Go `strings.ReplaceAll acc "-" ""`: delete every dash. -/
def stripDashes (s : String) : String :=
  String.mk (s.toList.filter (fun c => c ≠ '-'))

/-- Model of Go `strings.TrimLeft s "0"`: drop leading `'0'` characters. -/
def trimLeftZeros (s : String) : String :=
  String.mk (s.toList.dropWhile (fun c => c = '0'))

/-- ASCII lower-casing of one character. -/
def asciiLower (c : Char) : Char :=
  if 'A' ≤ c ∧ c ≤ 'Z' then Char.ofNat (c.toNat + 32) else c

/-- Case-folded form of a string (ASCII folding). -/
def foldStr (s : String) : String :=
  String.mk (s.toList.map asciiLower)

/-- Model of Go `strings.EqualFold` restricted to ASCII strings (tickers in the
SEC mapping are ASCII): equality of the case-folded forms. -/
def goEqualFold (a b : String) : Bool :=
  foldStr a == foldStr b

/-! ## Filing selector (`processTicker`, the item-building loop of `a.go`) -/

/-- The `item` struct of `a.go`. -/
structure Item where
  formType : String
  accNum : String
  docName : String
  dateStr : String
deriving DecidableEq, Repr

/-- The `Submissions.Filings.Recent` parallel arrays of `a.go`. -/
structure Recent where
  accessionNumber : List String
  filingDate : List String
  form : List String
  primaryDoc : List String

/-- The form allow-list test from the selection loop of `a.go`:
`formType != "10-K" && formType != "10-Q"` causes a `continue`, so an entry is
kept exactly when its form is `10-K` or `10-Q`. -/
def isAllowedForm (f : String) : Bool :=
  f == "10-K" || f == "10-Q"

/-- Result of running the selection loop: either the built item list, or the
panic a Go out-of-range slice index would raise. -/
inductive SelResult where
  | ok (items : List Item)
  | indexPanic
deriving DecidableEq, Repr

/-- The selection loop of `processTicker` in `a.go`: iterate `Form` with index
`i` (the suffix still to visit is passed explicitly), `continue` on a
disallowed form, `break` once `MaxFilesToFetch` items are collected, otherwise
read `AccessionNumber[i]`, `PrimaryDoc[i]`, `FilingDate[i]` (an out-of-range
index is a Go panic, modelled as `indexPanic`) and append the item. -/
def buildItemsAux (r : Recent) : Nat → List String → List Item → SelResult
  | _, [], acc => .ok acc
  | i, f :: rest, acc =>
    if ¬ isAllowedForm f then
      buildItemsAux r (i + 1) rest acc
    else if MaxFilesToFetch ≤ acc.length then
      .ok acc
    else
      match r.accessionNumber.get? i, r.primaryDoc.get? i, r.filingDate.get? i with
      | some a, some d, some dt =>
        buildItemsAux r (i + 1) rest (acc ++ [⟨f, a, d, dt⟩])
      | _, _, _ => .indexPanic

/-- The whole selection loop, started at index 0 with an empty item list. -/
def buildItems (r : Recent) : SelResult :=
  buildItemsAux r 0 r.form []

/-- Specification-side view of a catalog: the four parallel arrays zipped into
a list of records, in source order. -/
def zipItems : List String → List String → List String → List String → List Item
  | f :: fs, a :: as, d :: ds, t :: ts => ⟨f, a, d, t⟩ :: zipItems fs as ds ts
  | _, _, _, _ => []

/-- The equal-length invariant on a catalog's parallel arrays. -/
def eqLen (r : Recent) : Prop :=
  r.accessionNumber.length = r.form.length ∧
  r.primaryDoc.length = r.form.length ∧
  r.filingDate.length = r.form.length

/-! ## Per-entry outcome classification and run summary (`processTicker`) -/

/-- Per-entry outcome tag, as classified by `processTicker`. -/
inductive Outcome where
  | processed
  | skipped
  | failed
deriving DecidableEq, Repr

/-- Classification of one `downloadFiling` result by `processTicker`: `nil`
error means processed; an error whose message contains `"already exists"`
means skipped; any other error means failed. -/
def classifyResult (err : Option String) : Outcome :=
  match err with
  | none => .processed
  | some msg => if goContains msg "already exists" then .skipped else .failed

/-- The summary accumulator of `processTicker`: the `processed`, `skipped`,
`failed` counters and the `errors` message list. -/
structure Summary where
  processed : Nat
  skipped : Nat
  failed : Nat
  errors : List String
deriving DecidableEq, Repr

/-- The failure message recorded for one failed entry in `processTicker`:
`fmt.Sprintf of formType (dateStr): err`. -/
def failureMsg (it : Item) (msg : String) : String :=
  it.formType ++ " (" ++ it.dateStr ++ "): " ++ msg

/-- One iteration of the result loop of `processTicker`: bump exactly one
counter according to the classification, appending the message on failure. -/
def stepSummary (s : Summary) (it : Item) (err : Option String) : Summary :=
  match err with
  | none => { s with processed := s.processed + 1 }
  | some msg =>
    if goContains msg "already exists" then
      { s with skipped := s.skipped + 1 }
    else
      { s with failed := s.failed + 1, errors := s.errors ++ [failureMsg it msg] }

/-- The result loop of `processTicker` over the per-item download results. -/
def runSummary : List (Item × Option String) → Summary → Summary
  | [], s => s
  | (it, err) :: rest, s => runSummary rest (stepSummary s it err)

/-- The summary of a run, started from zeroed counters. -/
def summarize (results : List (Item × Option String)) : Summary :=
  runSummary results ⟨0, 0, 0, []⟩

/-! ## Ticker resolution (`getCIK` of `a.go`) -/

/-- The matching loop of `getCIK` in `a.go`, after the mapping document has
been fetched and decoded: scan the entries (Go map iteration, modelled as a
list in the order iteration happens to visit) and return the CIK of the first
company whose ticker matches case-insensitively; `none` models the
`ticker not found` error. -/
def getCIK (tickerMap : List (Nat × String)) (ticker : String) : Option Nat :=
  (tickerMap.find? (fun c => goEqualFold c.2 ticker)).map (fun c => c.1)

/-! ## Document fetch (`downloadFiling` of `a.go`) -/

/-- Local output state: the files present in the output directory, as
(name, content) pairs in creation order. -/
structure FS where
  files : List (String × String)
deriving DecidableEq, Repr

/-- File-existence check, Go `os.Stat(filename) == nil`. -/
def fileExists (fs : FS) (name : String) : Bool :=
  fs.files.any (fun f => f.1 == name)

/-- Number of files with the given name in the output state. -/
def countName (fs : FS) (name : String) : Nat :=
  (fs.files.filter (fun f => f.1 == name)).length

/-- Target filename derived in `downloadFiling`:
`filepath.Join(dir, date_form.txt)` (the path-separator join; `Join`'s path
cleaning is not modelled, the name is a deterministic function of its inputs
either way). -/
def targetFilename (dir date form : String) : String :=
  dir ++ "/" ++ date ++ "_" ++ form ++ ".txt"

/-- The archive URL built in `downloadFiling` from the unpadded CIK, the
dash-stripped accession number and the primary-document name. -/
def edgarURL (paddedCIK accNum docName : String) : String :=
  "https://www.sec.gov/Archives/edgar/data/" ++ trimLeftZeros paddedCIK ++ "/"
    ++ stripDashes accNum ++ "/" ++ docName

/-- Outcome of the single network call a non-skipped `downloadFiling` makes. -/
inductive NetResult where
  | transportErr (msg : String)
  | response (status : Nat) (body : String)
deriving DecidableEq, Repr

/-- Embedding of `downloadFiling` in `a.go`. Inputs: `conv` is the
markup-to-text conversion applied to the response body (the external
`html2text.HTML2Text`), `net` the result the network would return for the
document URL, `writeOk` whether the final `os.WriteFile` succeeds, `fs` the
current output-directory state. Output: the `error` return value (`none` on
success, `some msg` mirroring the Go error message), the new output state,
and the number of network requests issued. -/
def downloadFiling (conv : String → String) (net : NetResult) (writeOk : Bool)
    (fs : FS) (paddedCIK accNum docName date form dir : String) :
    Option String × FS × Nat :=
  let filename := targetFilename dir date form
  if fileExists fs filename then
    (some "already exists", fs, 0)
  else
    match net with
    | .transportErr m => (some m, fs, 1)
    | .response status body =>
      if status ≠ 200 then
        (some ("HTTP " ++ toString status ++ " from "
          ++ edgarURL paddedCIK accNum docName), fs, 1)
      else
        let text := conv body
        if writeOk then (none, ⟨fs.files ++ [(filename, text)]⟩, 1)
        else (some "write failed", fs, 1)

/-! ## Markup-to-text conversion model -/

/-- Tag-stripping scanner: outside a tag, a `<` enters tag state and is
dropped; inside a tag everything up to the closing `>` is dropped; all other
characters pass through unchanged. -/
def stripTagsAux : List Char → Bool → List Char
  | [], _ => []
  | c :: cs, true => if c = '>' then stripTagsAux cs false else stripTagsAux cs true
  | c :: cs, false => if c = '<' then stripTagsAux cs true else c :: stripTagsAux cs false

/-- Modelled from the spec: stage 1 of the normalization pipeline
("Markup-to-text conversion: strip tags/structure, yielding a plain-text
rendering of the document") — the only transformation `downloadFiling` in
`a.go` applies to a fetched body, performed there by the external
`html2text.HTML2Text` library whose source is not part of this repository.
Tag spans `<...>` are removed and every character outside a tag passes
through unchanged; in particular the conversion is the identity on
markup-free text. -/
def html2textModel (s : String) : String :=
  String.mk (stripTagsAux s.toList false)

/-! ## Rate-limited dispatcher (`parseRetryAfter` / `doRateLimitedRequest`) -/

/-- The `http.ParseTime` branch of `parseRetryAfter`: `pt` models
`http.ParseTime` (returning the parsed instant as nanoseconds since the
epoch), `now` the current instant; `time.Until t = t - now` is returned when
positive, else 0. -/
def retryAfterDate (pt : String → Option Int) (now : Int) (val : String) : Int :=
  match pt val with
  | some t => if 0 < t - now then t - now else 0
  | none => 0

/-- Embedding of `parseRetryAfter` in `a.go`: empty header yields 0; a
parseable integer that is positive yields that many seconds; otherwise a
parseable HTTP-date in the future yields the remaining delta; otherwise 0. -/
def parseRetryAfter (pt : String → Option Int) (now : Int) (val : String) : Int :=
  if val = "" then 0
  else
    match goAtoi val with
    | some secs => if 0 < secs then secs * nsPerSecond else retryAfterDate pt now val
    | none => retryAfterDate pt now val

/-- The delay actually slept before a retry, lines 113–116 of `a.go`:
the parsed Retry-After value, or `DefaultRetryDelay * (attempt+1)` when that
value is not positive (`attempt` is the 0-based loop counter). -/
def computeDelay (pt : String → Option Int) (now : Int) (val : String)
    (attempt : Nat) : Int :=
  let delay := parseRetryAfter pt now val
  if delay ≤ 0 then DefaultRetryDelay * ((attempt : Int) + 1) else delay

/-- One response as seen by the dispatcher's retry loop: a transport error or
a status code together with the `Retry-After` header value. -/
inductive Resp where
  | ok (status : Nat) (retryAfter : String)
  | transportErr
deriving DecidableEq, Repr

/-- Observable events of one `doRateLimitedRequest` call: a token acquisition
from the rate limiter (`limiter.Wait`), an HTTP request actually issued
(`httpClient.Do`), and a backoff sleep of the given duration. -/
inductive Ev where
  | acquire
  | request
  | sleep (d : Int)
deriving DecidableEq, Repr

/-- Result of `doRateLimitedRequest`: a response handed to the caller (any
non-429 status), a transport failure returned immediately, or the terminal
`max retries exceeded after 429 responses` error. -/
inductive DispatchResult where
  | success (status : Nat)
  | transportFailure
  | retriesExhausted
deriving DecidableEq, Repr

/-- The retry loop of `doRateLimitedRequest` in `a.go`. `responses i` is what
the network returns for the (i+1)-th issued request and `nows i` the clock
when its Retry-After header is parsed; `fuel` is the number of loop
iterations remaining (`MaxRetries - attempt`). Returns the result and the
trace of events the loop body emits. -/
def attemptLoop (pt : String → Option Int) (nows : Nat → Int)
    (responses : Nat → Resp) : Nat → Nat → DispatchResult × List Ev
  | 0, _ => (.retriesExhausted, [])
  | fuel + 1, attempt =>
    match responses attempt with
    | .transportErr => (.transportFailure, [.request])
    | .ok status hdr =>
      if status = 429 then
        let d := computeDelay pt (nows attempt) hdr attempt
        let rec' := attemptLoop pt nows responses fuel (attempt + 1)
        (rec'.1, .request :: .sleep d :: rec'.2)
      else
        (.success status, [.request])

/-- Embedding of `doRateLimitedRequest` in `a.go`: one `limiter.Wait` token
acquisition (which cannot fail under `context.Background()`), then the retry
loop started at attempt 0 with `MaxRetries` iterations available. -/
def doRateLimitedRequest (pt : String → Option Int) (nows : Nat → Int)
    (responses : Nat → Resp) : DispatchResult × List Ev :=
  let out := attemptLoop pt nows responses MaxRetries 0
  (out.1, .acquire :: out.2)

/-- Token-bucket replay of a trace starting from `t` available tokens: an
acquisition adds a token, a request needs and consumes one, sleeps are
neutral. `true` means every request was covered by its own prior
acquisition. -/
def gatedFrom : List Ev → Nat → Bool
  | [], _ => true
  | .acquire :: tr, t => gatedFrom tr (t + 1)
  | .request :: tr, t => match t with
    | 0 => false
    | t' + 1 => gatedFrom tr t'
  | .sleep _ :: tr, t => gatedFrom tr t

/-- Every request in the trace is preceded by its own (not yet spent) token
acquisition — the per-request gating property. -/
def perRequestGated (tr : List Ev) : Bool :=
  gatedFrom tr 0

/-! ## Helper lemmas -/

theorem drop_eq_cons_get? {α : Type} :
    ∀ (i : Nat) (l : List α) (x : α) (xs : List α),
      l.drop i = x :: xs → l.get? i = some x := by
  intro i
  induction i with
  | zero => intro l x xs h; simp at h; simp [h]
  | succ n ih =>
    intro l x xs h
    cases l with
    | nil => simp at h
    | cons y l' => exact ih l' x xs h

theorem drop_succ_of_drop_eq_cons {α : Type} :
    ∀ (i : Nat) (l : List α) (x : α) (xs : List α),
      l.drop i = x :: xs → l.drop (i + 1) = xs := by
  intro i
  induction i with
  | zero => intro l x xs h; simp at h; simp [h]
  | succ n ih =>
    intro l x xs h
    cases l with
    | nil => simp at h
    | cons y l' => exact ih l' x xs h

theorem drop_length_lt {α : Type} (l : List α) (i : Nat) (x : α) (xs : List α)
    (h : l.drop i = x :: xs) : (l.drop i).length = xs.length + 1 := by
  rw [h]; rfl

/-- Main characterisation of the selection loop: started at index `i` with a
suffix view of all four parallel arrays and an accumulator, it returns the
accumulator extended by the first `MaxFilesToFetch - acc.length` allowed
entries of the remaining catalog, in order — and never panics when the
arrays have equal length. -/
theorem buildItemsAux_eq (r : Recent) (h : eqLen r) :
    ∀ (fs : List String) (i : Nat) (acc : List Item)
      (hf : fs = r.form.drop i),
      buildItemsAux r i fs acc =
        .ok (acc ++ ((zipItems fs (r.accessionNumber.drop i) (r.primaryDoc.drop i)
            (r.filingDate.drop i)).filter
          (fun it => isAllowedForm it.formType)).take (MaxFilesToFetch - acc.length)) := by
  intro fs
  induction fs with
  | nil =>
    intro i acc _
    simp [buildItemsAux, zipItems]
  | cons f rest ih =>
    intro i acc hf
    obtain ⟨ha, hp, hd⟩ := h
    have hflen : (r.form.drop i).length = rest.length + 1 :=
      drop_length_lt r.form i f rest hf.symm
    have halen : (r.accessionNumber.drop i).length = rest.length + 1 := by
      rw [List.length_drop, ha, ← List.length_drop, hflen]
    have hplen : (r.primaryDoc.drop i).length = rest.length + 1 := by
      rw [List.length_drop, hp, ← List.length_drop, hflen]
    have hdlen : (r.filingDate.drop i).length = rest.length + 1 := by
      rw [List.length_drop, hd, ← List.length_drop, hflen]
    obtain ⟨a, as', has⟩ : ∃ a as', r.accessionNumber.drop i = a :: as' := by
      cases hcase : r.accessionNumber.drop i with
      | nil => rw [hcase] at halen; simp at halen
      | cons a as' => exact ⟨a, as', rfl⟩
    obtain ⟨d, ds', hds⟩ : ∃ d ds', r.primaryDoc.drop i = d :: ds' := by
      cases hcase : r.primaryDoc.drop i with
      | nil => rw [hcase] at hplen; simp at hplen
      | cons d ds' => exact ⟨d, ds', rfl⟩
    obtain ⟨t, ts', hts⟩ : ∃ t ts', r.filingDate.drop i = t :: ts' := by
      cases hcase : r.filingDate.drop i with
      | nil => rw [hcase] at hdlen; simp at hdlen
      | cons t ts' => exact ⟨t, ts', rfl⟩
    have hfnext : rest = r.form.drop (i + 1) :=
      (drop_succ_of_drop_eq_cons i r.form f rest hf.symm).symm
    have hanext : r.accessionNumber.drop (i + 1) = as' :=
      drop_succ_of_drop_eq_cons i r.accessionNumber a as' has
    have hpnext' : r.primaryDoc.drop (i + 1) = ds' :=
      drop_succ_of_drop_eq_cons i r.primaryDoc d ds' hds
    have hdnext : r.filingDate.drop (i + 1) = ts' :=
      drop_succ_of_drop_eq_cons i r.filingDate t ts' hts
    rw [has, hds, hts]
    by_cases hall : isAllowedForm f = true
    · by_cases hcap : MaxFilesToFetch ≤ acc.length
      · have hz : MaxFilesToFetch - acc.length = 0 := Nat.sub_eq_zero_of_le hcap
        simp [buildItemsAux, hall, hcap, hz, zipItems]
      · have hga : r.accessionNumber.get? i = some a := drop_eq_cons_get? i _ a as' has
        have hgd : r.primaryDoc.get? i = some d := drop_eq_cons_get? i _ d ds' hds
        have hgt : r.filingDate.get? i = some t := drop_eq_cons_get? i _ t ts' hts
        have hrec := ih (i + 1) (acc ++ [⟨f, a, d, t⟩]) hfnext
        rw [hanext, hpnext', hdnext] at hrec
        have hsub : MaxFilesToFetch - acc.length = (MaxFilesToFetch - (acc.length + 1)) + 1 := by
          omega
        simp only [buildItemsAux, hall, if_true, hcap, if_false, hga, hgd, hgt,
          ite_true, not_true, ite_false]
        rw [hrec]
        simp [zipItems, hall, hsub, List.take_succ_cons, List.append_assoc]
    · have hrec := ih (i + 1) acc hfnext
      rw [hanext, hpnext', hdnext] at hrec
      simp only [buildItemsAux, hall]
      rw [if_pos (by simp [hall]), hrec]
      simp [zipItems, hall]

/-- The selection loop on a well-formed catalog equals taking the first
`MaxFilesToFetch` allowed entries of the zipped catalog, in source order. -/
theorem buildItems_eq (r : Recent) (h : eqLen r) :
    buildItems r =
      .ok (((zipItems r.form r.accessionNumber r.primaryDoc r.filingDate).filter
        (fun it => isAllowedForm it.formType)).take MaxFilesToFetch) := by
  have hmain := buildItemsAux_eq r h r.form 0 [] (by simp)
  simpa [buildItems] using hmain

/-- Invariant of the summary loop: the three counters grow by exactly the
number of consumed results, and the error list grows in lockstep with the
failed counter. -/
theorem runSummary_counts (rs : List (Item × Option String)) :
    ∀ s : Summary,
      ((runSummary rs s).processed + (runSummary rs s).skipped + (runSummary rs s).failed
        = s.processed + s.skipped + s.failed + rs.length) ∧
      ((runSummary rs s).errors.length + s.failed
        = (runSummary rs s).failed + s.errors.length) := by
  induction rs with
  | nil => intro s; refine ⟨by simp [runSummary], by simp [runSummary]; omega⟩
  | cons p rest ih =>
    intro s
    obtain ⟨it, err⟩ := p
    have h := ih (stepSummary s it err)
    have hstep : (stepSummary s it err).processed + (stepSummary s it err).skipped
        + (stepSummary s it err).failed = s.processed + s.skipped + s.failed + 1 ∧
        (stepSummary s it err).errors.length + s.failed
          = (stepSummary s it err).failed + s.errors.length := by
      cases err with
      | none => refine ⟨by simp [stepSummary]; omega, by simp [stepSummary]; omega⟩
      | some msg =>
        by_cases hc : goContains msg "already exists" = true
        · refine ⟨by simp [stepSummary, hc]; omega, by simp [stepSummary, hc]; omega⟩
        · refine ⟨by simp [stepSummary, hc]; omega, by simp [stepSummary, hc]; omega⟩
    have hgoal : runSummary ((it, err) :: rest) s = runSummary rest (stepSummary s it err) := rfl
    rw [hgoal, List.length_cons]
    omega

/-- The retry loop never touches the rate limiter: its trace contains no
token acquisition. -/
theorem acquire_not_mem_attemptLoop (pt : String → Option Int) (nows : Nat → Int)
    (responses : Nat → Resp) :
    ∀ (fuel attempt : Nat), Ev.acquire ∉ (attemptLoop pt nows responses fuel attempt).2 := by
  intro fuel
  induction fuel with
  | zero => intro attempt; simp [attemptLoop]
  | succ n ih =>
    intro attempt
    cases hresp : responses attempt with
    | transportErr => simp [attemptLoop, hresp]
    | ok status hdr =>
      by_cases hs : status = 429
      · simp only [attemptLoop, hresp, hs, if_true]
        intro hmem
        rcases hmem with _ | ⟨_, hmem⟩
        rcases hmem with _ | ⟨_, hmem⟩
        exact ih (attempt + 1) hmem
      · simp [attemptLoop, hresp, hs]

/-- The retry loop issues at most `fuel` requests. -/
theorem attemptLoop_request_le (pt : String → Option Int) (nows : Nat → Int)
    (responses : Nat → Resp) :
    ∀ (fuel attempt : Nat),
      (attemptLoop pt nows responses fuel attempt).2.count Ev.request ≤ fuel := by
  intro fuel
  induction fuel with
  | zero => intro attempt; simp [attemptLoop]
  | succ n ih =>
    intro attempt
    cases hresp : responses attempt with
    | transportErr => simp [attemptLoop, hresp, List.count_cons, List.count_nil]
    | ok status hdr =>
      by_cases hs : status = 429
      · simp only [attemptLoop, hresp, hs, if_true]
        have := ih (attempt + 1)
        simp [List.count_cons]
        omega
      · simp [attemptLoop, hresp, hs, List.count_cons]

/-- Under sustained throttling the retry loop consumes all its fuel: it
issues exactly `fuel` requests and ends in the retries-exhausted error. -/
theorem attemptLoop_all429 (pt : String → Option Int) (nows : Nat → Int)
    (responses : Nat → Resp) :
    ∀ (fuel attempt : Nat),
      (∀ i, attempt ≤ i → i < attempt + fuel → ∃ hdr, responses i = Resp.ok 429 hdr) →
      (attemptLoop pt nows responses fuel attempt).1 = DispatchResult.retriesExhausted ∧
      (attemptLoop pt nows responses fuel attempt).2.count Ev.request = fuel := by
  intro fuel
  induction fuel with
  | zero => intro attempt _; simp [attemptLoop]
  | succ n ih =>
    intro attempt hall
    obtain ⟨hdr, hresp⟩ := hall attempt (Nat.le_refl _) (by omega)
    have hrest : ∀ i, attempt + 1 ≤ i → i < attempt + 1 + n →
        ∃ h, responses i = Resp.ok 429 h := by
      intro i h1 h2
      exact hall i (by omega) (by omega)
    have hrec := ih (attempt + 1) hrest
    simp only [attemptLoop, hresp, if_true]
    refine ⟨hrec.1, ?_⟩
    simp [List.count_cons, hrec.2]

/-- Tag stripping is the identity on markup-free character data. -/
theorem stripTagsAux_of_no_tag :
    ∀ (cs : List Char), '<' ∉ cs → stripTagsAux cs false = cs := by
  intro cs
  induction cs with
  | nil => intro _; rfl
  | cons c rest ih =>
    intro h
    have hc : ¬ c = '<' := fun hc => h (hc ▸ List.mem_cons_self c rest)
    have hrest : '<' ∉ rest := fun hm => h (List.mem_cons_of_mem c hm)
    simp [stripTagsAux, hc, ih hrest]

/-- A name absent from the output state occurs zero times in it. -/
theorem countName_eq_zero_of_not_exists (fs : FS) (name : String)
    (h : fileExists fs name = false) : countName fs name = 0 := by
  unfold fileExists at h
  unfold countName
  rw [List.length_eq_zero]
  rw [List.filter_eq_nil_iff]
  intro a ha
  rcases List.any_eq_false.mp h a ha with hfalse
  simpa using hfalse

/-- The error raised on an existing target file is classified as skipped. -/
theorem classify_already_exists : classifyResult (some "already exists") = Outcome.skipped := by
  decide

/-! ## Claim theorems -/

/-- C1 counterexample: in a run whose first response is a 429 and whose second
succeeds, the dispatcher issues two requests but acquires only one token, so
the retry request is not individually gated by a fresh rate-limiter token:
the token-bucket replay of the trace fails. -/
theorem retry_without_fresh_token_counterexample :
    (doRateLimitedRequest (fun _ => none) (fun _ => 0)
        (fun i => if i = 0 then Resp.ok 429 "" else Resp.ok 200 "")).2.count Ev.request = 2 ∧
    (doRateLimitedRequest (fun _ => none) (fun _ => 0)
        (fun i => if i = 0 then Resp.ok 429 "" else Resp.ok 200 "")).2.count Ev.acquire = 1 ∧
    perRequestGated (doRateLimitedRequest (fun _ => none) (fun _ => 0)
        (fun i => if i = 0 then Resp.ok 429 "" else Resp.ok 200 "")).2 = false := by
  refine ⟨by decide, by decide, by decide⟩

/-- C1 (amended): the dispatcher acquires exactly one rate-limiter token per
call, before the first attempt; every request (including every retry) is
issued after that acquisition, and retries acquire no additional token. -/
theorem token_acquired_once_before_requests (pt : String → Option Int)
    (nows : Nat → Int) (responses : Nat → Resp) :
    ∃ rest, (doRateLimitedRequest pt nows responses).2 = Ev.acquire :: rest ∧
      Ev.acquire ∉ rest ∧
      (doRateLimitedRequest pt nows responses).2.count Ev.acquire = 1 := by
  refine ⟨(attemptLoop pt nows responses MaxRetries 0).2, rfl,
    acquire_not_mem_attemptLoop pt nows responses MaxRetries 0, ?_⟩
  have hnm := acquire_not_mem_attemptLoop pt nows responses MaxRetries 0
  show (Ev.acquire :: (attemptLoop pt nows responses MaxRetries 0).2).count Ev.acquire = 1
  rw [List.count_cons_self, List.count_eq_zero.mpr hnm]

/-- C4 counterexample: under sustained throttling (every response a 429) the
dispatcher returns the retries-exhausted error after exactly `MaxRetries = 5`
requests — the error is not surfaced on a sixth ((N+1)-th) throttled
response, which never occurs. -/
theorem exhaustion_counterexample :
    (doRateLimitedRequest (fun _ => none) (fun _ => 0) (fun _ => Resp.ok 429 "")).1
        = DispatchResult.retriesExhausted ∧
    (doRateLimitedRequest (fun _ => none) (fun _ => 0)
        (fun _ => Resp.ok 429 "")).2.count Ev.request = MaxRetries ∧
    ¬ ((doRateLimitedRequest (fun _ => none) (fun _ => 0)
        (fun _ => Resp.ok 429 "")).2.count Ev.request = MaxRetries + 1) := by
  refine ⟨by decide, by decide, by decide⟩

/-- C4 (amended): the dispatcher never issues more than `MaxRetries = 5`
requests, and under sustained throttling it deterministically surfaces the
terminal retries-exhausted error immediately after the fifth (N-th) throttled
response, issuing exactly `MaxRetries` requests and no (N+1)-th. -/
theorem attempts_capped_and_exhaustion (pt : String → Option Int)
    (nows : Nat → Int) (responses : Nat → Resp) :
    (doRateLimitedRequest pt nows responses).2.count Ev.request ≤ MaxRetries ∧
    ((∀ i, i < MaxRetries → ∃ hdr, responses i = Resp.ok 429 hdr) →
      (doRateLimitedRequest pt nows responses).1 = DispatchResult.retriesExhausted ∧
      (doRateLimitedRequest pt nows responses).2.count Ev.request = MaxRetries) := by
  constructor
  · show (Ev.acquire :: (attemptLoop pt nows responses MaxRetries 0).2).count
        Ev.request ≤ MaxRetries
    rw [List.count_cons_of_ne (by decide)]
    exact attemptLoop_request_le pt nows responses MaxRetries 0
  · intro hall
    have h := attemptLoop_all429 pt nows responses MaxRetries 0
      (by intro i h1 h2; exact hall i (by omega))
    refine ⟨h.1, ?_⟩
    show (Ev.acquire :: (attemptLoop pt nows responses MaxRetries 0).2).count
        Ev.request = MaxRetries
    rw [List.count_cons_of_ne (by decide)]
    exact h.2

/-- C4 witness: the amended theorem applied to an all-429 response stream. -/
theorem attempts_capped_and_exhaustion_witness :
    (doRateLimitedRequest (fun _ => none) (fun _ => 0) (fun _ => Resp.ok 429 "x")).1
        = DispatchResult.retriesExhausted ∧
    (doRateLimitedRequest (fun _ => none) (fun _ => 0)
        (fun _ => Resp.ok 429 "x")).2.count Ev.request = MaxRetries :=
  (attempts_capped_and_exhaustion (fun _ => none) (fun _ => 0)
    (fun _ => Resp.ok 429 "x")).2 (fun _ _ => ⟨"x", rfl⟩)

/-- C5: the wait before a retry is the Retry-After header value in seconds
when that value is a positive integer; else the remaining delta to the parsed
HTTP-date when that date is in the future; else the linear backoff
`DefaultRetryDelay * attemptNumber` with `attemptNumber` the 1-based attempt
index. `pt` models `http.ParseTime` and is required to reject the empty
string, as the real parser does. -/
theorem retry_delay_policy (pt : String → Option Int) (now : Int) (val : String)
    (attempt : Nat) (hpt : pt "" = none) :
    (∀ n : Int, goAtoi val = some n → 0 < n →
      computeDelay pt now val attempt = n * nsPerSecond) ∧
    ((¬ ∃ n, goAtoi val = some n ∧ 0 < n) →
      ∀ t : Int, pt val = some t → 0 < t - now →
        computeDelay pt now val attempt = t - now) ∧
    ((¬ ∃ n, goAtoi val = some n ∧ 0 < n) →
      (∀ t : Int, pt val = some t → t - now ≤ 0) →
      computeDelay pt now val attempt = DefaultRetryDelay * ((attempt : Int) + 1)) := by
  have hns : (0 : Int) < nsPerSecond := by norm_num [nsPerSecond]
  refine ⟨?_, ?_, ?_⟩
  · intro n hn hpos
    have hval : ¬ val = "" := by
      intro he
      rw [he] at hn
      simp [goAtoi] at hn
    unfold computeDelay parseRetryAfter
    rw [if_neg hval]
    simp only [hn]
    rw [if_pos hpos, if_neg (not_le.mpr (mul_pos hpos hns))]
  · intro hnone t hpt' hfut
    have hval : ¬ val = "" := by
      intro he
      rw [he, hpt] at hpt'
      exact Option.noConfusion hpt'
    have hdate : retryAfterDate pt now val = t - now := by
      unfold retryAfterDate
      simp only [hpt']
      rw [if_pos hfut]
    unfold computeDelay parseRetryAfter
    rw [if_neg hval]
    cases hga : goAtoi val with
    | none =>
      simp only [hga, hdate]
      rw [if_neg (not_le.mpr hfut)]
    | some n =>
      have hnpos : ¬ 0 < n := fun hp => hnone ⟨n, hga, hp⟩
      simp only [hga]
      rw [if_neg hnpos, hdate, if_neg (not_le.mpr hfut)]
  · intro hnone hpast
    by_cases hval : val = ""
    · rw [hval]
      unfold computeDelay parseRetryAfter
      rw [if_pos rfl, if_pos (by norm_num)]
    · have hdate : retryAfterDate pt now val = 0 := by
        unfold retryAfterDate
        cases hp' : pt val with
        | none => rfl
        | some t =>
          simp only [hp']
          rw [if_neg (not_lt.mpr (hpast t hp'))]
      unfold computeDelay parseRetryAfter
      rw [if_neg hval]
      cases hga : goAtoi val with
      | none =>
        simp only [hga, hdate]
        rw [if_pos (by norm_num)]
      | some n =>
        have hnpos : ¬ 0 < n := fun hp => hnone ⟨n, hga, hp⟩
        simp only [hga]
        rw [if_neg hnpos, hdate, if_pos (by norm_num)]

/-- C5 witness: a positive-integer Retry-After of 7 yields a 7-second wait. -/
theorem retry_delay_policy_witness :
    computeDelay (fun _ => none) 0 "7" 2 = 7 * nsPerSecond :=
  (retry_delay_policy (fun _ => none) 0 "7" 2 rfl).1 7 (by decide) (by decide)

/-- C2 counterexample: a successful download of the body `hello` for the
`10-K` filed `2024-02-01` writes the file content `hello`, which contains
neither the filing date nor the form tag, so the written content does not
begin with a metadata header block carrying them. -/
theorem no_metadata_header_counterexample :
    (downloadFiling html2textModel (NetResult.response 200 "hello") true ⟨[]⟩
        "0000123456" "0000123456-24-000001" "doc.htm" "2024-02-01" "10-K"
        "filings_ACME").2.1.files
      = [("filings_ACME/2024-02-01_10-K.txt", "hello")] ∧
    goContains "hello" "2024-02-01" = false ∧
    goContains "hello" "10-K" = false := by
  refine ⟨by decide, by decide, by decide⟩

/-- C2 (amended): for every successfully downloaded entry the written file
content is exactly the markup-to-text conversion of the response body; no
metadata header is prepended (the content does not depend on the entity
context, identifier, form tag or filing date). -/
theorem written_content_is_bare_conversion (conv : String → String) (body : String)
    (fs : FS) (p a dn date form dir : String)
    (h : fileExists fs (targetFilename dir date form) = false) :
    (downloadFiling conv (NetResult.response 200 body) true fs p a dn date form dir).2.1.files
      = fs.files ++ [(targetFilename dir date form, conv body)] := by
  simp [downloadFiling, h]

/-- C2 witness: the amended theorem at a concrete download. -/
theorem written_content_is_bare_conversion_witness :
    (downloadFiling html2textModel (NetResult.response 200 "<p>hi</p>") true ⟨[]⟩
        "0000123456" "0000123456-24-000002" "doc.htm" "2024-03-01" "10-Q"
        "filings_ACME").2.1.files
      = [("filings_ACME/2024-03-01_10-Q.txt", html2textModel "<p>hi</p>")] :=
  written_content_is_bare_conversion html2textModel "<p>hi</p>" ⟨[]⟩
    "0000123456" "0000123456-24-000002" "doc.htm" "2024-03-01" "10-Q"
    "filings_ACME" rfl

/-- C3 counterexample: the only normalization the code applies is the
markup-to-text conversion, which performs no whitespace-drift repair: the
body `$ 1,000` is written unchanged (not re-glued to `$1,000`), and
`(  500)` is written unchanged (not `(500)`). -/
theorem no_drift_repair_counterexample :
    html2textModel "$ 1,000" = "$ 1,000" ∧
    ¬ html2textModel "$ 1,000" = "$1,000" ∧
    html2textModel "(  500)" = "(  500)" ∧
    ¬ html2textModel "(  500)" = "(500)" ∧
    (downloadFiling html2textModel (NetResult.response 200 "$ 1,000") true ⟨[]⟩
        "0000123456" "0000123456-24-000001" "doc.htm" "2024-02-01" "10-K"
        "filings_ACME").2.1.files
      = [("filings_ACME/2024-02-01_10-K.txt", "$ 1,000")] := by
  refine ⟨by decide, by decide, by decide, by decide, by decide⟩

/-- C3 (amended): the fetched document undergoes only markup-to-text
conversion; on markup-free body text the written content is the body itself,
character for character — no currency/sign/parenthesis re-gluing and no
whitespace removal is performed. -/
theorem conversion_preserves_plain_text (body : String) (hbody : '<' ∉ body.toList)
    (fs : FS) (p a dn date form dir : String)
    (h : fileExists fs (targetFilename dir date form) = false) :
    (downloadFiling html2textModel (NetResult.response 200 body) true fs p a dn date form
        dir).2.1.files
      = fs.files ++ [(targetFilename dir date form, body)] := by
  have hid : html2textModel body = body := by
    unfold html2textModel
    rw [stripTagsAux_of_no_tag body.toList hbody]
    cases body
    rfl
  simp [downloadFiling, h, hid]

/-- C3 witness: the amended theorem at the spec's drift example `$ 1,000`. -/
theorem conversion_preserves_plain_text_witness :
    (downloadFiling html2textModel (NetResult.response 200 "$ 1,000") true ⟨[]⟩
        "0000123456" "0000123456-23-000009" "doc.htm" "2023-11-05" "10-Q"
        "filings_X").2.1.files
      = [("filings_X/2023-11-05_10-Q.txt", "$ 1,000")] :=
  conversion_preserves_plain_text "$ 1,000" (by decide) ⟨[]⟩
    "0000123456" "0000123456-23-000009" "doc.htm" "2023-11-05" "10-Q"
    "filings_X" rfl

/-- C6: document fetch is idempotent: when the target file does not yet
exist, a first successful fetch writes it (one network call), and a second
fetch for the same entry returns the `already exists` error — classified as
Skipped, not Failed — performs zero network calls, leaves the directory
unchanged, and the directory holds exactly one file of that name. -/
theorem fetch_idempotent (conv : String → String) (body : String) (fs : FS)
    (p a dn date form dir : String)
    (h : fileExists fs (targetFilename dir date form) = false) :
    (downloadFiling conv (NetResult.response 200 body) true fs p a dn date form dir).1
        = none ∧
    downloadFiling conv (NetResult.response 200 body) true
        (downloadFiling conv (NetResult.response 200 body) true fs p a dn date form dir).2.1
        p a dn date form dir
      = (some "already exists",
         (downloadFiling conv (NetResult.response 200 body) true fs p a dn date form dir).2.1,
         0) ∧
    classifyResult (downloadFiling conv (NetResult.response 200 body) true
        (downloadFiling conv (NetResult.response 200 body) true fs p a dn date form dir).2.1
        p a dn date form dir).1 = Outcome.skipped ∧
    countName (downloadFiling conv (NetResult.response 200 body) true fs p a dn date
        form dir).2.1 (targetFilename dir date form) = 1 := by
  have hfst : downloadFiling conv (NetResult.response 200 body) true fs p a dn date form dir
      = (none, ⟨fs.files ++ [(targetFilename dir date form, conv body)]⟩, 1) := by
    simp [downloadFiling, h]
  have hex2 : fileExists ⟨fs.files ++ [(targetFilename dir date form, conv body)]⟩
      (targetFilename dir date form) = true := by
    simp [fileExists]
  have hsnd : downloadFiling conv (NetResult.response 200 body) true
      ⟨fs.files ++ [(targetFilename dir date form, conv body)]⟩ p a dn date form dir
      = (some "already exists",
         ⟨fs.files ++ [(targetFilename dir date form, conv body)]⟩, 0) := by
    simp [downloadFiling, hex2]
  have hcount : countName ⟨fs.files ++ [(targetFilename dir date form, conv body)]⟩
      (targetFilename dir date form) = 1 := by
    unfold countName
    rw [List.filter_append, List.length_append]
    have h0 := countName_eq_zero_of_not_exists fs (targetFilename dir date form) h
    unfold countName at h0
    rw [h0]
    simp
  refine ⟨by rw [hfst], ?_, ?_, ?_⟩
  · rw [hfst]
    exact hsnd
  · rw [hfst]
    show classifyResult (downloadFiling conv (NetResult.response 200 body) true
      ⟨fs.files ++ [(targetFilename dir date form, conv body)]⟩ p a dn date form dir).1
        = Outcome.skipped
    rw [hsnd]
    exact classify_already_exists
  · rw [hfst]
    exact hcount

/-- C6 witness: the idempotence theorem at a concrete entry in an empty
output directory. -/
theorem fetch_idempotent_witness :
    (downloadFiling html2textModel (NetResult.response 200 "hello") true ⟨[]⟩
        "0000123456" "0000123456-24-000001" "doc.htm" "2024-02-01" "10-K"
        "filings_ACME").1 = none ∧
    downloadFiling html2textModel (NetResult.response 200 "hello") true
        (downloadFiling html2textModel (NetResult.response 200 "hello") true ⟨[]⟩
          "0000123456" "0000123456-24-000001" "doc.htm" "2024-02-01" "10-K"
          "filings_ACME").2.1
        "0000123456" "0000123456-24-000001" "doc.htm" "2024-02-01" "10-K" "filings_ACME"
      = (some "already exists",
         (downloadFiling html2textModel (NetResult.response 200 "hello") true ⟨[]⟩
           "0000123456" "0000123456-24-000001" "doc.htm" "2024-02-01" "10-K"
           "filings_ACME").2.1,
         0) ∧
    classifyResult (downloadFiling html2textModel (NetResult.response 200 "hello") true
        (downloadFiling html2textModel (NetResult.response 200 "hello") true ⟨[]⟩
          "0000123456" "0000123456-24-000001" "doc.htm" "2024-02-01" "10-K"
          "filings_ACME").2.1
        "0000123456" "0000123456-24-000001" "doc.htm" "2024-02-01" "10-K"
        "filings_ACME").1 = Outcome.skipped ∧
    countName (downloadFiling html2textModel (NetResult.response 200 "hello") true ⟨[]⟩
        "0000123456" "0000123456-24-000001" "doc.htm" "2024-02-01" "10-K"
        "filings_ACME").2.1 (targetFilename "filings_ACME" "2024-02-01" "10-K") = 1 :=
  fetch_idempotent html2textModel "hello" ⟨[]⟩ "0000123456" "0000123456-24-000001"
    "doc.htm" "2024-02-01" "10-K" "filings_ACME" rfl

/-- C7: on a well-formed catalog the selection equals the first
`MaxFilesToFetch = 10` entries whose form is in the allow-list, in catalog
order; consequently the selection never exceeds the cap and contains only
allowed forms. -/
theorem selection_filter_cap_order (r : Recent) (h : eqLen r) :
    buildItems r =
      .ok (((zipItems r.form r.accessionNumber r.primaryDoc r.filingDate).filter
        (fun it => isAllowedForm it.formType)).take MaxFilesToFetch) ∧
    ∀ items, buildItems r = .ok items →
      items.length ≤ MaxFilesToFetch ∧ ∀ it ∈ items, isAllowedForm it.formType = true := by
  have hmain := buildItems_eq r h
  refine ⟨hmain, ?_⟩
  intro items hits
  rw [hmain] at hits
  injection hits with hits
  constructor
  · rw [← hits, List.length_take]
    exact Nat.min_le_left _ _
  · intro it hmem
    rw [← hits] at hmem
    have hmem' := List.mem_of_mem_take hmem
    exact (List.mem_filter.mp hmem').2

/-- C7 witness: the catalog `[10-K, 8-K, 10-Q, 10-K]` selects its three
allowed entries in order (cap 10 not reached). -/
theorem selection_filter_cap_order_witness :
    buildItems ⟨["a1", "a2", "a3", "a4"], ["d1", "d2", "d3", "d4"],
        ["10-K", "8-K", "10-Q", "10-K"], ["p1", "p2", "p3", "p4"]⟩ =
      SelResult.ok [⟨"10-K", "a1", "p1", "d1"⟩, ⟨"10-Q", "a3", "p3", "d3"⟩,
        ⟨"10-K", "a4", "p4", "d4"⟩] := by
  have h := (selection_filter_cap_order ⟨["a1", "a2", "a3", "a4"],
    ["d1", "d2", "d3", "d4"], ["10-K", "8-K", "10-Q", "10-K"],
    ["p1", "p2", "p3", "p4"]⟩ ⟨rfl, rfl, rfl⟩).1
  exact h.trans (by decide)

/-- C8: symbol resolution is case-insensitive — resolving case-fold-equal
symbols yields the same identifier — and it returns the not-found error
exactly when no entry of the mapping matches the symbol case-insensitively. -/
theorem resolution_case_insensitive (m : List (Nat × String)) (s t : String)
    (h : goEqualFold s t = true) :
    getCIK m s = getCIK m t ∧
    (getCIK m s = none ↔ ∀ c ∈ m, goEqualFold c.2 s = false) := by
  have hfold : foldStr s = foldStr t := by
    unfold goEqualFold at h
    exact eq_of_beq h
  have hpred : (fun c : Nat × String => goEqualFold c.2 s)
      = (fun c : Nat × String => goEqualFold c.2 t) := by
    funext c
    unfold goEqualFold
    rw [hfold]
  constructor
  · unfold getCIK
    rw [hpred]
  · unfold getCIK
    constructor
    · intro hn c hc
      rw [Option.map_eq_none'] at hn
      have hfind := List.find?_eq_none.mp hn c hc
      simpa using hfind
    · intro hall
      rw [Option.map_eq_none']
      apply List.find?_eq_none.mpr
      intro c hc
      simp [hall c hc]

/-- C8 witness: `aapl` and `AAPL` resolve identically in a concrete mapping,
and the not-found characterisation holds there. -/
theorem resolution_case_insensitive_witness :
    getCIK [(320193, "AAPL"), (789019, "MSFT")] "aapl"
        = getCIK [(320193, "AAPL"), (789019, "MSFT")] "AAPL" ∧
    (getCIK [(320193, "AAPL"), (789019, "MSFT")] "aapl" = none ↔
      ∀ c ∈ [(320193, "AAPL"), (789019, "MSFT")], goEqualFold c.2 "aapl" = false) :=
  resolution_case_insensitive [(320193, "AAPL"), (789019, "MSFT")] "aapl" "AAPL"
    (by decide)

/-- C9: under the equal-length invariant on the catalog's parallel arrays,
the selection loop completes without any out-of-range index access. -/
theorem selection_indices_in_bounds (r : Recent) (h : eqLen r) :
    ∃ items, buildItems r = SelResult.ok items :=
  ⟨_, buildItems_eq r h⟩

/-- C9 witness: the in-bounds theorem at a concrete two-entry catalog. -/
theorem selection_indices_in_bounds_witness :
    ∃ items, buildItems ⟨["b1", "b2"], ["e1", "e2"], ["8-K", "10-K"], ["q1", "q2"]⟩
      = SelResult.ok items :=
  selection_indices_in_bounds ⟨["b1", "b2"], ["e1", "e2"], ["8-K", "10-K"], ["q1", "q2"]⟩
    ⟨rfl, rfl, rfl⟩

/-- C10: the per-entry outcome counters partition the selection: Processed,
Skipped and Failed always sum to the number of results, and the recorded
failure messages number exactly the Failed count. -/
theorem summary_partition (results : List (Item × Option String)) :
    (summarize results).processed + (summarize results).skipped
        + (summarize results).failed = results.length ∧
    (summarize results).errors.length = (summarize results).failed := by
  obtain ⟨h1, h2⟩ := runSummary_counts results ⟨0, 0, 0, []⟩
  unfold summarize
  constructor
  · simpa using h1
  · simpa using h2

end EDGAR
